import Mathlib

/-!
Verification of the ijk-annotator application core (`src/callbacks.py`,
`src/parse_data.py`) against its natural-language specification.

The embedding models the Dash callback functions as pure Lean functions:
Dash store payloads become explicit arguments and return values, Python
`None` becomes `Option`, Python floats become exact rationals `ℚ`, and a
Python runtime error (IndexError / TypeError) becomes a `none` result of
an `Option`-returning function.
-/

/-- One finalized annotation row, as built by `handle_annotation` in
`src/callbacks.py` (`new_row = {"i": ..., "j": ..., "k": ..., "width": ...,
"height": ..., "i_conf": "", "j_conf": "", "k_conf": ""}`).  The `i`, `j`,
`k` sample offsets are `Option` because the Python dict may hold `None`
for a field that was never placed. -/
structure Row where
  i : Option ℚ
  j : Option ℚ
  k : Option ℚ
  width : ℚ
  height : ℚ
  i_conf : String
  j_conf : String
  k_conf : String
deriving DecidableEq, Repr

/-- The `table-store` payload: a Python dict mapping the index of the selected signal (a string in Python, a `Nat` here since `str` is injective on
indices) to the list of committed rows.  Modelled as an association list
with Python-dict insertion semantics. -/
abbrev Table := List (Nat × List Row)

/-- Dict lookup `table_data[k]` / `k in table_data` support. -/
def tableGet : Table → Nat → Option (List Row)
  | [], _ => none
  | (k2, v) :: rest, k => if k2 = k then some v else tableGet rest k

/-- Dict assignment `table_data[k] = v`: replaces the value at an existing
key in place, or appends a fresh key at the end (Python dict insertion
order). -/
def tableSet : Table → Nat → List Row → Table
  | [], k, v => [(k, v)]
  | (k2, v2) :: rest, k, v =>
      if k2 = k then (k, v) :: rest else (k2, v2) :: tableSet rest k v

/-- Models `if str_idx not in table_data: table_data[str_idx] = []` from
the annotation callback. -/
def ensureKey (t : Table) (k : Nat) : Table :=
  if (tableGet t k).isSome then t else t ++ [(k, [])]

/-- Models `table_data[str_idx].append(new_row)`. -/
def appendRow (t : Table) (k : Nat) (r : Row) : Table :=
  tableSet t k ((tableGet t k).getD [] ++ [r])

/-- The `annotation-store` payload initialised by `handle_annotation`. -/
structure AnnotState where
  modeActive : Bool
  clickCount : Nat
  i_samp : Option ℚ
  i_amp : Option ℚ
  j_samp : Option ℚ
  j_amp : Option ℚ
  k_samp : Option ℚ
  k_amp : Option ℚ
deriving DecidableEq, Repr

/-- The reset / idle annotation state (`modeActive=False, clickCount=0`,
all marks `None`), used both when the store is empty and after a commit. -/
def initAnnot : AnnotState :=
  { modeActive := false, clickCount := 0,
    i_samp := none, i_amp := none,
    j_samp := none, j_amp := none,
    k_samp := none, k_amp := none }

/-- The state written on the "Add Complex" button: annotation mode armed,
no marks placed. -/
def armedAnnot : AnnotState := { initAnnot with modeActive := true }

/-- One entry of `signals_data`: epoch timestamp (seconds, exact) and the
sample array. -/
structure Recording where
  ts : ℚ
  signals : List ℚ
deriving DecidableEq, Repr

/-- A plot click (`click_data["points"][0]`), resolved to the absolute
clicked time in seconds and the clicked amplitude. -/
structure ClickData where
  time : ℚ
  amp : ℚ
deriving DecidableEq, Repr

/-- Which Dash input fired `handle_annotation` (`ctx.triggered_id`). -/
inductive ATrigger where
  | addComplexBtn
  | mainPlot
  | other
deriving DecidableEq, Repr

/-- Models `step_sec = duration / (num_samples - 1) if num_samples > 1 else 1`
(shared by `update_plot` and the annotation callback). -/
def stepSec (duration : ℚ) (num_samples : Nat) : ℚ :=
  if num_samples > 1 then duration / ((num_samples : ℚ) - 1) else 1

/-- Models `sample_index_float = delta_sec / step_sec if step_sec != 0 else 0`. -/
def sampleIndexFloat (step delta : ℚ) : ℚ :=
  if step = 0 then 0 else delta / step

/-- The mark-placement block of `handle_annotation`: assign the click to
`i`, `j` or `k` according to `clickCount`, then increment `clickCount`. -/
def recordClickState (a : AnnotState) (samp amp : ℚ) : AnnotState :=
  let a1 :=
    if a.clickCount = 0 then { a with i_samp := some samp, i_amp := some amp }
    else if a.clickCount = 1 then { a with j_samp := some samp, j_amp := some amp }
    else if a.clickCount = 2 then { a with k_samp := some samp, k_amp := some amp }
    else a
  { a1 with clickCount := a1.clickCount + 1 }

/-- The annotation callback of `src/callbacks.py` (`handle_annotation`).
Returns `none` exactly where Python would raise: indexing
`signals_data[selected_signal]` out of range, or computing
`width = k_samp - i_samp` / `height = j_amp - k_amp` with a `None`
operand. -/
def handle_annotation (signals_data : List Recording) (duration : ℚ)
    (trigger : ATrigger) (click_data : Option ClickData)
    (selected_signal : Option Nat)
    (annot0 : Option AnnotState) (table0 : Option Table) :
    Option (AnnotState × Table) :=
  let table_data := table0.getD []
  let annot_state := annot0.getD initAnnot
  match selected_signal with
  | none => some (annot_state, table_data)
  | some sel =>
      let td := ensureKey table_data sel
      if trigger = ATrigger.addComplexBtn then
        some (armedAnnot, td)
      else if trigger = ATrigger.mainPlot ∧ annot_state.modeActive = true ∧
              click_data.isSome then
        match click_data, signals_data.get? sel with
        | some cd, some entry =>
            let num_samples := entry.signals.length
            let step := stepSec duration num_samples
            let delta := cd.time - entry.ts
            let samp := sampleIndexFloat step delta
            let a2 := recordClickState annot_state samp cd.amp
            if a2.clickCount = 3 then
              match a2.i_samp, a2.k_samp, a2.j_amp, a2.k_amp with
              | some isamp, some ksamp, some jamp, some kamp =>
                  some (initAnnot, appendRow td sel
                    { i := some isamp, j := a2.j_samp, k := some ksamp,
                      width := ksamp - isamp, height := jamp - kamp,
                      i_conf := "", j_conf := "", k_conf := "" })
              | _, _, _, _ => none
            else
              some (a2, td)
        | none, _ => some (annot_state, td)
        | _, none => none
      else
        some (annot_state, td)

/-- One `history-store` frame: the `{"table": ..., "annot": ...}` pair.
`manage_history` only copies and compares these payloads, so the frame is
parametric in the two store types. -/
structure HistFrame (α β : Type) where
  table : α
  annot : β
deriving DecidableEq, Repr

/-- The `history-store` payload: `{"past": [...], "present": {...},
"future": [...]}`, with the stack tops at the END of the lists (Python
`list.append` / `list.pop`). -/
structure History (α β : Type) where
  past : List (HistFrame α β)
  present : HistFrame α β
  future : List (HistFrame α β)
deriving DecidableEq, Repr

/-- Which Dash input fired `manage_history`. -/
inductive HTrigger where
  | undoBtn
  | redoBtn
  | storeUpdate
deriving DecidableEq, Repr

/-- The history callback of `src/callbacks.py` (`manage_history`).
Returns the new history store plus the `table-store` and
`annotation-store` payloads it writes back.  The `Inhabited` defaults
stand for the literal empty dicts of the Python
`{"table": {}, "annot": {}}` initialiser used when the store is `None`. -/
def manage_history [DecidableEq α] [DecidableEq β] [Inhabited α] [Inhabited β]
    (trigger : HTrigger) (table_data : α) (annot_data : β)
    (history0 : Option (History α β)) : History α β × α × β :=
  let history := history0.getD
    { past := [], present := { table := default, annot := default }, future := [] }
  match trigger with
  | HTrigger.undoBtn =>
      match history.past.getLast? with
      | some newPresent =>
          ({ past := history.past.dropLast, present := newPresent,
             future := history.future ++ [history.present] },
           newPresent.table, newPresent.annot)
      | none => (history, history.present.table, history.present.annot)
  | HTrigger.redoBtn =>
      match history.future.getLast? with
      | some newPresent =>
          ({ past := history.past ++ [history.present], present := newPresent,
             future := history.future.dropLast },
           newPresent.table, newPresent.annot)
      | none => (history, history.present.table, history.present.annot)
  | HTrigger.storeUpdate =>
      if table_data ≠ history.present.table ∨ annot_data ≠ history.present.annot then
        ({ past := history.past ++ [history.present],
           present := { table := table_data, annot := annot_data },
           future := [] },
         table_data, annot_data)
      else
        (history, history.present.table, history.present.annot)

/-- Performs `undo()` on the history store: the `manage_history` branch for
the undo button (the table/annot inputs are ignored on that branch). -/
def undo [DecidableEq α] [DecidableEq β] [Inhabited α] [Inhabited β]
    (h : History α β) : History α β :=
  (manage_history HTrigger.undoBtn default default (some h)).1

/-- Performs `redo()` on the history store: the `manage_history` branch for
the redo button. -/
def redo [DecidableEq α] [DecidableEq β] [Inhabited α] [Inhabited β]
    (h : History α β) : History α β :=
  (manage_history HTrigger.redoBtn default default (some h)).1

/-- Iterates `undo()` a given number of times. -/
def undoN [DecidableEq α] [DecidableEq β] [Inhabited α] [Inhabited β] :
    Nat → History α β → History α β
  | 0, h => h
  | n + 1, h => undo (undoN n h)

/-- Iterates `redo()` a given number of times, applied after an `undoN` run:
the first `redo` acts on the incoming state, the rest follow. -/
def redoN [DecidableEq α] [DecidableEq β] [Inhabited α] [Inhabited β] :
    Nat → History α β → History α β
  | 0, h => h
  | n + 1, h => redoN n (redo h)

/-- One recorded mutation: a table/annot store update routed through the
non-button branch of `manage_history`. -/
def recordMutation [DecidableEq α] [DecidableEq β] [Inhabited α] [Inhabited β]
    (h : History α β) (m : α × β) : History α β :=
  (manage_history HTrigger.storeUpdate m.1 m.2 (some h)).1

/-- A whole session of recorded mutations starting from a given
history. -/
def recordMutations [DecidableEq α] [DecidableEq β] [Inhabited α] [Inhabited β]
    (h : History α β) (ms : List (α × β)) : History α β :=
  ms.foldl recordMutation h

/-- The history created by `manage_history` when the store is `None`. -/
def initialHistory [Inhabited α] [Inhabited β] : History α β :=
  { past := [], present := { table := default, annot := default }, future := [] }

/-- The grid-sync callback of `src/callbacks.py` (`sync_table_deletion`):
absorbs the rows of the editable DataTable back into the `table-store`. -/
def sync_table_deletion (curr_data prev_data : List Row)
    (selected_signal : Option Nat) (table0 : Option Table) : Table :=
  let table_data := table0.getD []
  match selected_signal with
  | none => table_data
  | some sel =>
      if curr_data = prev_data then table_data
      else tableSet (ensureKey table_data sel) sel curr_data

/-- What the export callback hands to the browser: either the Dash
`no_update` sentinel, or one downloadable CSV file (name, header row,
data rows). -/
inductive ExportResult where
  | noUpdate
  | csvFile (filename : String) (header : List String) (records : List Row)
deriving DecidableEq, Repr

/-- The column names of a committed row, in the dict insertion order used
to build `new_row` (pandas derives the CSV header from these keys). -/
def rowFieldNames : List String :=
  ["i", "j", "k", "width", "height", "i_conf", "j_conf", "k_conf"]

/-- The export callback of `src/callbacks.py` (`export_table`).  An empty
`base_name` models the falsy `None`/`""` filename input. -/
def export_table (table_data : List Row) (export_format : String)
    (base_name : String) : ExportResult :=
  if table_data = [] then ExportResult.noUpdate
  else
    let base := if base_name = "" then "annotations" else base_name
    if export_format = "csv" then
      ExportResult.csvFile (base ++ ".csv") rowFieldNames table_data
    else
      ExportResult.noUpdate

/-- Modelled from the spec: `scipy.signal.butter` is an external
collaborator not present under `src/`; per the collaborator
contract of the spec the filter "raises on `low_hz >= high_hz`" and otherwise yields
a second-order-sections description.  Only the error behaviour matters to
the claims, so the sections themselves are kept abstract as the validated
frequency pair. -/
def butter_bandpass (lowcut highcut sampling_rate : ℚ) (order_bb : Nat) :
    Except String (ℚ × ℚ × ℚ × Nat) :=
  let nyq := (1 / 2) * sampling_rate
  let low := lowcut / nyq
  let high := highcut / nyq
  if low ≥ high then Except.error "Digital filter critical frequencies must satisfy low < high"
  else Except.ok (low, high, sampling_rate, order_bb)

/-- Modelled from the spec: `scipy.signal.sosfiltfilt` is an external
collaborator not present under `src/`; per the contract in the spec it returns
a filtered sequence of the same length as the input.  The numeric values
of the zero-phase Butterworth output are out of scope for the spec, so the
samples are carried through structurally (one output per input sample). -/
def sosfiltfilt (sos : ℚ × ℚ × ℚ × Nat) (piezo : List ℚ) : List ℚ :=
  piezo.map (fun v => v * sos.2.2.1 / sos.2.2.1)

/-- The filter wrapper of `src/parse_data.py` (`sos_filter`): validates
the frequency list shape itself, then delegates to the scipy
collaborators. -/
def sos_filter (piezo : List ℚ) (order : Nat)
    (frequency_list : Option (List ℚ)) (sample_rate : ℚ) :
    Except String (List ℚ) :=
  match frequency_list with
  | none =>
      Except.error "frequency_list must be a list with two elements [lowcut, highcut]."
  | some fl =>
      if fl.length ≠ 2 then
        Except.error "frequency_list must be a list with two elements [lowcut, highcut]."
      else
        match butter_bandpass (fl.getD 0 0) (fl.getD 1 0) sample_rate order with
        | Except.error e => Except.error e
        | Except.ok sos => Except.ok (sosfiltfilt sos piezo)

/-- Models `clamp_index` from `src/callbacks.py`. -/
def clamp_index (v low hi : ℤ) : ℤ := max low (min v hi)

/-- Models the Python `round` on an exact rational: round half to even, as used in
`int(round(i_samp))` when a sample offset indexes the signal array. -/
def pyRound (q : ℚ) : ℤ :=
  let f := ⌊q⌋
  if q - (f : ℚ) < 1 / 2 then f
  else if q - (f : ℚ) > 1 / 2 then f + 1
  else if f % 2 = 0 then f else f + 1

/-- The time-axis point for a (possibly fractional) sample index, in
seconds since the epoch: `start_dt + timedelta(seconds=i * step_sec)`. -/
def timeAxis (ts : ℚ) (step : ℚ) (i : ℚ) : ℚ := ts + i * step

/-- Editor states reachable from the initial idle state of the callback by
invocations of the annotation callback (with arbitrary triggers, clicks,
selections and table payloads) that complete without a Python error. -/
inductive ReachableAnnot (sd : List Recording) (dur : ℚ) : AnnotState → Prop where
  | init : ReachableAnnot sd dur initAnnot
  | step {a a' : AnnotState} {trig : ATrigger} {cd : Option ClickData}
      {sel : Option Nat} {t0 : Option Table} {t' : Table} :
      ReachableAnnot sd dur a →
      handle_annotation sd dur trig cd sel (some a) t0 = some (a', t') →
      ReachableAnnot sd dur a'

/-- A sample grid row used for concrete test evaluations. -/
def rowA : Row :=
  { i := some 0, j := some 1, k := some 2, width := 2, height := 1,
    i_conf := "", j_conf := "", k_conf := "" }

/-- A second sample grid row. -/
def rowB : Row :=
  { i := some 3, j := some 4, k := some 5, width := 2, height := 1,
    i_conf := "", j_conf := "", k_conf := "" }

/-- A third sample grid row, playing the part of a row added by a grid
edit. -/
def rowC : Row :=
  { i := some 6, j := some 7, k := some 8, width := 2, height := 1,
    i_conf := "", j_conf := "", k_conf := "" }


/-! ## Association-list (Python dict) lemmas -/

theorem tableGet_tableSet_self (t : Table) (k : Nat) (v : List Row) :
    tableGet (tableSet t k v) k = some v := by
  induction t with
  | nil => simp [tableGet, tableSet]
  | cons hd tl ih =>
      obtain ⟨k2, v2⟩ := hd
      by_cases hk : k2 = k
      · simp [tableGet, tableSet, hk]
      · simp [tableGet, tableSet, hk, ih]

theorem tableGet_tableSet_ne (t : Table) {k k2 : Nat} (h : k2 ≠ k) (v : List Row) :
    tableGet (tableSet t k v) k2 = tableGet t k2 := by
  induction t with
  | nil => simp [tableGet, tableSet, Ne.symm h]
  | cons hd tl ih =>
      obtain ⟨k3, v3⟩ := hd
      by_cases hk : k3 = k
      · subst hk
        simp [tableGet, tableSet, if_neg (Ne.symm h)]
      · simp only [tableSet, if_neg hk]
        by_cases hk2 : k3 = k2
        · simp [tableGet, hk2]
        · simp [tableGet, hk2, ih]

theorem tableGet_append_ne (t : Table) {k k2 : Nat} (h : k2 ≠ k) :
    tableGet (t ++ [(k, [])]) k2 = tableGet t k2 := by
  induction t with
  | nil => simp [tableGet, Ne.symm h]
  | cons hd tl ih =>
      obtain ⟨k3, v3⟩ := hd
      by_cases hk : k3 = k2
      · simp [tableGet, hk]
      · simp [tableGet, hk, ih]

theorem tableGet_ensureKey_ne (t : Table) {k k2 : Nat} (h : k2 ≠ k) :
    tableGet (ensureKey t k) k2 = tableGet t k2 := by
  unfold ensureKey
  split
  · rfl
  · exact tableGet_append_ne t h

theorem tableGet_append_self (t : Table) {k : Nat} (h : tableGet t k = none) :
    tableGet (t ++ [(k, [])]) k = some [] := by
  induction t with
  | nil => simp [tableGet]
  | cons hd tl ih =>
      obtain ⟨k3, v3⟩ := hd
      rw [tableGet] at h
      by_cases hk : k3 = k
      · simp [hk] at h
      · simp only [if_neg hk] at h
        simp [tableGet, hk, ih h]

theorem tableGet_ensureKey_self (t : Table) (k : Nat) :
    tableGet (ensureKey t k) k = some ((tableGet t k).getD []) := by
  unfold ensureKey
  split
  · rename_i hs
    obtain ⟨v, hv⟩ := Option.isSome_iff_exists.mp hs
    simp [hv]
  · rename_i hs
    have hn : tableGet t k = none := by
      cases hh : tableGet t k
      · rfl
      · rw [hh] at hs; simp at hs
    rw [hn, Option.getD_none]
    exact tableGet_append_self t hn

theorem tableGet_appendRow_self (t : Table) (k : Nat) (r : Row) :
    tableGet (appendRow t k r) k = some ((tableGet t k).getD [] ++ [r]) :=
  tableGet_tableSet_self t k _

theorem tableGet_appendRow_ne (t : Table) {k k2 : Nat} (h : k2 ≠ k) (r : Row) :
    tableGet (appendRow t k r) k2 = tableGet t k2 :=
  tableGet_tableSet_ne t h _

theorem handle_some_cases (sd : List Recording) (dur : ℚ) (trig : ATrigger)
    (cd : Option ClickData) (sel : Nat) (a0 : Option AnnotState) (t0 : Option Table)
    (a' : AnnotState) (t' : Table)
    (h : handle_annotation sd dur trig cd (some sel) a0 t0 = some (a', t')) :
    (t' = ensureKey (t0.getD []) sel ∧
      (a' = armedAnnot ∨ a' = a0.getD initAnnot ∨
        (∃ samp amp, a' = recordClickState (a0.getD initAnnot) samp amp ∧
          a'.clickCount ≠ 3))) ∨
    (∃ r, t' = appendRow (ensureKey (t0.getD []) sel) sel r ∧ a' = initAnnot) := by
  unfold handle_annotation at h
  simp only at h
  split at h
  · rw [Option.some.injEq, Prod.mk.injEq] at h
    obtain ⟨rfl, rfl⟩ := h
    exact Or.inl ⟨rfl, Or.inl rfl⟩
  · split at h
    · split at h
      · rename_i cd2 entry heq2
        split at h
        · rename_i hcount
          split at h
          · rename_i isamp ksamp jamp kamp his hks hjs hka
            rw [Option.some.injEq, Prod.mk.injEq] at h
            obtain ⟨rfl, rfl⟩ := h
            exact Or.inr ⟨_, rfl, rfl⟩
          · exact absurd h (by simp)
        · rename_i hcount
          rw [Option.some.injEq, Prod.mk.injEq] at h
          obtain ⟨rfl, rfl⟩ := h
          exact Or.inl ⟨rfl, Or.inr (Or.inr ⟨_, _, rfl, hcount⟩)⟩
      · rw [Option.some.injEq, Prod.mk.injEq] at h
        obtain ⟨rfl, rfl⟩ := h
        exact Or.inl ⟨rfl, Or.inr (Or.inl rfl)⟩
      · exact absurd h (by simp)
    · rw [Option.some.injEq, Prod.mk.injEq] at h
      obtain ⟨rfl, rfl⟩ := h
      exact Or.inl ⟨rfl, Or.inr (Or.inl rfl)⟩

theorem recordClickState_clickCount (a : AnnotState) (samp amp : ℚ) :
    (recordClickState a samp amp).clickCount = a.clickCount + 1 := by
  unfold recordClickState
  split_ifs <;> rfl

theorem clickCount_le_step {sd : List Recording} {dur : ℚ} {trig : ATrigger}
    {cd : Option ClickData} {sel : Option Nat} {a : AnnotState}
    {t0 : Option Table} {a' : AnnotState} {t' : Table}
    (ha : a.clickCount ≤ 2)
    (h : handle_annotation sd dur trig cd sel (some a) t0 = some (a', t')) :
    a'.clickCount ≤ 2 := by
  cases sel with
  | none =>
      unfold handle_annotation at h
      simp only at h
      rw [Option.some.injEq, Prod.mk.injEq] at h
      obtain ⟨rfl, rfl⟩ := h
      exact ha
  | some s =>
      rcases handle_some_cases _ _ _ _ _ _ _ _ _ h with
        ⟨_, rfl | rfl | ⟨samp, amp, rfl, hne⟩⟩ | ⟨r, _, rfl⟩
      · decide
      · simpa using ha
      · rw [recordClickState_clickCount] at hne ⊢
        simp only [Option.getD_some] at hne ⊢
        omega
      · decide

/-- Claim C5: every editor state reachable from the initial idle state via
annotation-callback transitions has `clickCount ≤ 2` (never 3), and any
single transition from such a state either leaves the table entry of the
selected recording untouched or atomically appends exactly one committed row while
returning the editor to the idle state. -/
theorem annot_editor_invariant (sd : List Recording) (dur : ℚ) :
    (∀ a : AnnotState, ReachableAnnot sd dur a → a.clickCount ≤ 2) ∧
    (∀ (a : AnnotState) (trig : ATrigger) (cd : Option ClickData) (sel : Nat)
        (t0 : Option Table) (a' : AnnotState) (t' : Table),
        a.clickCount ≤ 2 →
        handle_annotation sd dur trig cd (some sel) (some a) t0 = some (a', t') →
        a'.clickCount ≤ 2 ∧
          (t' = ensureKey (t0.getD []) sel ∨
            ∃ r, t' = appendRow (ensureKey (t0.getD []) sel) sel r ∧ a' = initAnnot)) := by
  constructor
  · intro a hr
    induction hr with
    | init => decide
    | step hr hstep ih => exact clickCount_le_step ih hstep
  · intro a trig cd sel t0 a' t' ha h
    refine ⟨clickCount_le_step ha h, ?_⟩
    rcases handle_some_cases _ _ _ _ _ _ _ _ _ h with ⟨ht, -⟩ | ⟨r, ht, hA⟩
    · exact Or.inl ht
    · exact Or.inr ⟨r, ht, hA⟩

/-- Claim C6: when no recording is selected, the annotation callback is a
silent no-op: it returns the incoming editor state and annotation table
exactly unchanged, and never surfaces an error. -/
theorem handle_no_recording (sd : List Recording) (dur : ℚ) (trig : ATrigger)
    (cd : Option ClickData) (a : AnnotState) (t : Table) :
    handle_annotation sd dur trig cd none (some a) (some t) = some (a, t) := rfl

/-- Claim C10: every completed invocation of the annotation callback with a
selected recording returns a table containing an entry for the key of that
recording — inserting an empty row list when the key was absent (no-action
invocations return exactly the key-ensured table) — while the row
sequences stored under every other key are unchanged. -/
theorem handle_table_frame (sd : List Recording) (dur : ℚ) (trig : ATrigger)
    (cd : Option ClickData) (sel : Nat) (a0 : Option AnnotState) (t0 : Option Table)
    (a' : AnnotState) (t' : Table)
    (h : handle_annotation sd dur trig cd (some sel) a0 t0 = some (a', t')) :
    (tableGet t' sel).isSome = true ∧
      (∀ k, k ≠ sel → tableGet t' k = tableGet (t0.getD []) k) ∧
      ((trig ≠ ATrigger.mainPlot ∨ (a0.getD initAnnot).modeActive = false ∨ cd = none) →
        t' = ensureKey (t0.getD []) sel ∧
          (tableGet (t0.getD []) sel = none → tableGet t' sel = some [])) := by
  refine ⟨?_, ?_, ?_⟩
  · rcases handle_some_cases _ _ _ _ _ _ _ _ _ h with ⟨rfl, -⟩ | ⟨r, rfl, -⟩
    · rw [tableGet_ensureKey_self]; rfl
    · rw [tableGet_appendRow_self]; rfl
  · intro k hk
    rcases handle_some_cases _ _ _ _ _ _ _ _ _ h with ⟨rfl, -⟩ | ⟨r, rfl, -⟩
    · exact tableGet_ensureKey_ne _ hk
    · rw [tableGet_appendRow_ne _ hk]
      exact tableGet_ensureKey_ne _ hk
  · intro hcond
    have ht : t' = ensureKey (t0.getD []) sel := by
      unfold handle_annotation at h
      simp only at h
      split at h
      · rw [Option.some.injEq, Prod.mk.injEq] at h
        exact h.2.symm
      · split at h
        · rename_i hC
          exfalso
          rcases hcond with hc | hc | hc
          · exact hc hC.1
          · rw [hC.2.1] at hc; cases hc
          · rw [hc] at hC; exact absurd hC.2.2 (by simp)
        · rw [Option.some.injEq, Prod.mk.injEq] at h
          exact h.2.symm
    refine ⟨ht, fun habs => ?_⟩
    rw [ht, tableGet_ensureKey_self, habs, Option.getD_none]

/-- Claim C1: with annotation mode active, a recording selected and the two
marks `i` and `j` already placed (`clickCount = 2`), a plot click commits
exactly one new row appended to the sequence of the selected recording, with
`width = k_samp - i_samp` and `height = j_amp - k_amp` (the clicked point
becoming `k`), and resets the editor to the idle state (`modeActive =
false`, `clickCount = 0`, all marks cleared). -/
theorem handle_commit_third_click (sd : List Recording) (dur : ℚ) (cd : ClickData)
    (sel : Nat) (entry : Recording) (a : AnnotState) (t0 : Option Table)
    (isamp iamp jsamp jamp : ℚ)
    (hentry : sd.get? sel = some entry)
    (hmode : a.modeActive = true)
    (hcount : a.clickCount = 2)
    (hi : a.i_samp = some isamp) (_hia : a.i_amp = some iamp)
    (hj : a.j_samp = some jsamp) (hja : a.j_amp = some jamp) :
    handle_annotation sd dur ATrigger.mainPlot (some cd) (some sel) (some a) t0 =
      some (initAnnot, appendRow (ensureKey (t0.getD []) sel) sel
        { i := some isamp, j := some jsamp,
          k := some (sampleIndexFloat (stepSec dur entry.signals.length) (cd.time - entry.ts)),
          width := sampleIndexFloat (stepSec dur entry.signals.length) (cd.time - entry.ts) - isamp,
          height := jamp - cd.amp,
          i_conf := "", j_conf := "", k_conf := "" }) := by
  unfold handle_annotation
  simp only [Option.getD_some, Option.isSome_some, hentry]
  rw [if_neg (by decide), if_pos (by simp [hmode])]
  simp only [recordClickState, hcount]
  norm_num
  simp [hi, hj, hja]

theorem undo_eq_of_concat [DecidableEq α] [DecidableEq β] [Inhabited α] [Inhabited β]
    (h : History α β) (l : List (HistFrame α β)) (x : HistFrame α β)
    (hl : h.past = l ++ [x]) :
    undo h = { past := l, present := x, future := h.future ++ [h.present] } := by
  unfold undo manage_history
  simp only [Option.getD_some, hl, List.getLast?_concat, List.dropLast_concat]

theorem redo_undo_of_past_ne [DecidableEq α] [DecidableEq β] [Inhabited α] [Inhabited β]
    (h : History α β) (hp : h.past ≠ []) : redo (undo h) = h := by
  obtain ⟨l, x, hl⟩ := (List.eq_nil_or_concat h.past).resolve_left hp
  rw [List.concat_eq_append] at hl
  rw [undo_eq_of_concat h l x hl]
  unfold redo manage_history
  simp only [Option.getD_some, List.getLast?_concat, List.dropLast_concat]
  rw [← hl]

theorem undoN_past_length [DecidableEq α] [DecidableEq β] [Inhabited α] [Inhabited β] :
    ∀ (n : Nat) (h : History α β), n ≤ h.past.length →
      (undoN n h).past.length = h.past.length - n := by
  intro n
  induction n with
  | zero => intro h _; simp [undoN]
  | succ n ih =>
      intro h hn
      have hlen : (undoN n h).past.length = h.past.length - n := ih h (Nat.le_of_succ_le hn)
      have hne : (undoN n h).past ≠ [] := by
        intro hemp
        rw [hemp] at hlen
        simp at hlen
        omega
      obtain ⟨l, x, hl⟩ := (List.eq_nil_or_concat (undoN n h).past).resolve_left hne
      rw [List.concat_eq_append] at hl
      have hlen2 : (undoN n h).past.length = l.length + 1 := by rw [hl]; simp
      rw [undoN, undo_eq_of_concat _ l x hl]
      show l.length = h.past.length - (n + 1)
      omega

theorem redoN_undoN [DecidableEq α] [DecidableEq β] [Inhabited α] [Inhabited β] :
    ∀ (n : Nat) (h : History α β), n ≤ h.past.length → redoN n (undoN n h) = h := by
  intro n
  induction n with
  | zero => intro h _; rfl
  | succ n ih =>
      intro h hn
      have hlen : (undoN n h).past.length = h.past.length - n :=
        undoN_past_length n h (Nat.le_of_succ_le hn)
      have hne : (undoN n h).past ≠ [] := by
        intro hemp
        rw [hemp] at hlen
        simp at hlen
        omega
      calc redoN (n + 1) (undoN (n + 1) h)
          = redoN n (redo (undo (undoN n h))) := rfl
        _ = redoN n (undoN n h) := by rw [redo_undo_of_past_ne _ hne]
        _ = h := ih h (Nat.le_of_succ_le hn)

theorem recordMutation_future [DecidableEq α] [DecidableEq β] [Inhabited α] [Inhabited β]
    (h : History α β) (m : α × β) (hf : h.future = []) :
    (recordMutation h m).future = [] := by
  unfold recordMutation manage_history
  simp only [Option.getD_some]
  split
  · rfl
  · exact hf

theorem recordMutations_future [DecidableEq α] [DecidableEq β] [Inhabited α] [Inhabited β]
    (ms : List (α × β)) : ∀ h : History α β, h.future = [] →
      (recordMutations h ms).future = [] := by
  induction ms with
  | nil => intro h hf; exact hf
  | cons m ms ih => intro h hf; exact ih _ (recordMutation_future h m hf)

/-- Claim C2: for every history state with non-empty past, `undo()` followed
by `redo()` restores the exact prior state; and for any sequence of recorded
mutations from the initial history, undoing until `past` is empty and then
redoing until `future` is empty reproduces the original table and editor
snapshot (indeed the whole history state) row-for-row. -/
theorem history_round_trip (α β : Type) [DecidableEq α] [DecidableEq β]
    [Inhabited α] [Inhabited β] (ms : List (α × β)) :
    (∀ h : History α β, h.past ≠ [] → redo (undo h) = h) ∧
    ((recordMutations (initialHistory : History α β) ms).future = [] ∧
      (undoN (recordMutations (initialHistory : History α β) ms).past.length
          (recordMutations (initialHistory : History α β) ms)).past = [] ∧
      redoN (recordMutations (initialHistory : History α β) ms).past.length
          (undoN (recordMutations (initialHistory : History α β) ms).past.length
            (recordMutations (initialHistory : History α β) ms)) =
        recordMutations (initialHistory : History α β) ms) := by
  refine ⟨redo_undo_of_past_ne, ?_, ?_, ?_⟩
  · exact recordMutations_future ms _ rfl
  · have := undoN_past_length (α := α) (β := β)
      (recordMutations (initialHistory : History α β) ms).past.length
      (recordMutations (initialHistory : History α β) ms) le_rfl
    simpa using List.length_eq_zero.mp (by omega)
  · exact redoN_undoN _ _ le_rfl

/-- Claim C4: on a table/editor mutation trigger (not undo/redo),
`manage_history` pushes the current present onto `past`, installs the
incoming pair as the new present and clears `future` whenever the incoming
pair differs from the present; when the incoming pair is identical to the
present, the history stack and the returned table and editor state are
unchanged. -/
theorem record_if_changed_spec (α β : Type) [DecidableEq α] [DecidableEq β]
    [Inhabited α] [Inhabited β] (t : α) (an : β) (h : History α β) :
    (¬(t = h.present.table ∧ an = h.present.annot) →
      manage_history HTrigger.storeUpdate t an (some h) =
        ({ past := h.past ++ [h.present], present := { table := t, annot := an },
           future := [] }, t, an)) ∧
    (t = h.present.table → an = h.present.annot →
      manage_history HTrigger.storeUpdate t an (some h) = (h, t, an)) := by
  constructor
  · intro hne
    unfold manage_history
    simp only [Option.getD_some]
    rw [if_pos (not_and_or.mp hne)]
  · intro h1 h2
    subst h1
    subst h2
    unfold manage_history
    simp only [Option.getD_some]
    rw [if_neg (by simp)]

/-- Claim C3, counterexample: a grid snapshot that GROWS from 2 rows to 3
rows is handled by exactly the same overwrite path as a deletion —
`sync_table_deletion` performs no length comparison, so the claim that only
a strictly shrinking snapshot overwrites the stored sequence is false. -/
theorem sync_growth_also_overwrites :
    sync_table_deletion [rowA, rowB, rowC] [rowA, rowB] (some 0)
        (some [(0, [rowA, rowB])]) = [(0, [rowA, rowB, rowC])] ∧
    ([(0, [rowA, rowB, rowC])] : Table) ≠ [(0, [rowA, rowB])] := by
  constructor
  · decide
  · decide

/-- Claim C3, amended: `sync_table_deletion` overwrites the stored row
sequence for the selected recording with the grid contents exactly when
the new snapshot differs from the previous one (leaving all other
sequences of other recordings unchanged); an unchanged snapshot, or no selected
recording, returns the stored table unchanged.  No length check is made, so
growing and shrinking snapshots take the same path. -/
theorem sync_change_overwrites (curr prev : List Row) (sel : Nat) (t0 : Option Table) :
    (curr ≠ prev →
      tableGet (sync_table_deletion curr prev (some sel) t0) sel = some curr ∧
      ∀ k, k ≠ sel → tableGet (sync_table_deletion curr prev (some sel) t0) k =
        tableGet (t0.getD []) k) ∧
    (curr = prev → sync_table_deletion curr prev (some sel) t0 = t0.getD []) ∧
    sync_table_deletion curr prev none t0 = t0.getD [] := by
  refine ⟨?_, ?_, rfl⟩
  · intro hne
    unfold sync_table_deletion
    simp only [if_neg hne]
    constructor
    · exact tableGet_tableSet_self _ _ _
    · intro k hk
      rw [tableGet_tableSet_ne _ hk]
      exact tableGet_ensureKey_ne _ hk
  · intro heq
    unfold sync_table_deletion
    simp only [if_pos heq]

/-- Claim C7: exporting an empty row sequence produces no output artifact
(a silent no-op); exporting non-empty rows as "csv" produces exactly one
file named `{base_name}.csv` (default base `annotations`) whose header is
the row field names, with one record per annotation row; any unsupported
format produces no file and no error. -/
theorem export_table_spec (rows : List Row) (fmt base : String) :
    export_table [] fmt base = ExportResult.noUpdate ∧
    (rows ≠ [] → export_table rows "csv" base =
      ExportResult.csvFile ((if base = "" then "annotations" else base) ++ ".csv")
        rowFieldNames rows) ∧
    (fmt ≠ "csv" → export_table rows fmt base = ExportResult.noUpdate) := by
  refine ⟨rfl, ?_, ?_⟩
  · intro hne
    unfold export_table
    rw [if_neg hne]
    simp
  · intro hfmt
    unfold export_table
    simp only [if_neg hfmt]
    split <;> rfl

/-- Claim C8: the time axis maps `sample_index` to `timestamp +
sample_index * (duration / (num_samples - 1))`, falling back to a step of 1
second per sample when `num_samples ≤ 1`; the inverse mapping resolves a
clicked time back to the fractional sample index (and yields 0 when the
step is 0); and a sample offset used as an array index is rounded to a
nearest integer (Python half-to-even) and clamped to `[0, num_samples-1]`. -/
theorem time_axis_spec (ts dur : ℚ) (num_samples : Nat) (i q : ℚ) (v : ℤ) (n : Nat) :
    (1 < num_samples →
      timeAxis ts (stepSec dur num_samples) i =
        ts + i * (dur / ((num_samples : ℚ) - 1))) ∧
    (num_samples ≤ 1 → stepSec dur num_samples = 1) ∧
    sampleIndexFloat 0 q = 0 ∧
    (∀ step : ℚ, step ≠ 0 → sampleIndexFloat step (timeAxis ts step i - ts) = i) ∧
    |(pyRound q : ℚ) - q| ≤ 1 / 2 ∧
    (1 ≤ n → 0 ≤ clamp_index v 0 ((n : ℤ) - 1) ∧
      clamp_index v 0 ((n : ℤ) - 1) ≤ (n : ℤ) - 1) := by
  refine ⟨?_, ?_, rfl, ?_, ?_, ?_⟩
  · intro hn
    unfold timeAxis stepSec
    rw [if_pos hn]
  · intro hn
    unfold stepSec
    rw [if_neg (by omega)]
  · intro step hstep
    unfold sampleIndexFloat timeAxis
    rw [if_neg hstep]
    have : ts + i * step - ts = i * step := by ring
    rw [this]
    exact mul_div_cancel_right₀ i hstep
  · have hf1 : (⌊q⌋ : ℚ) ≤ q := Int.floor_le q
    have hf2 : q < (⌊q⌋ : ℚ) + 1 := Int.lt_floor_add_one q
    unfold pyRound
    dsimp only
    split_ifs with h1 h2 h3 <;>
      · rw [abs_le]
        push_cast
        constructor <;> linarith
  · intro hn
    have hn2 : (0 : ℤ) ≤ (n : ℤ) - 1 := by
      have : (1 : ℤ) ≤ (n : ℤ) := by exact_mod_cast hn
      omega
    unfold clamp_index
    exact ⟨le_max_left 0 _, max_le hn2 (min_le_right v _)⟩

/-- Claim C9: `sos_filter` errors when `low_hz ≥ high_hz` or when the
frequency spec is not a two-element list, and for every well-formed input
returns a filtered sequence of the same length as the input samples.  The
scipy collaborators are modelled from the contract in the spec (see
`butter_bandpass` and `sosfiltfilt`). -/
theorem sos_filter_spec (piezo : List ℚ) (order : Nat) (low high sr : ℚ) (fl : List ℚ) :
    (0 < sr → low ≥ high →
      ∃ e, sos_filter piezo order (some [low, high]) sr = Except.error e) ∧
    (fl.length ≠ 2 → ∃ e, sos_filter piezo order (some fl) sr = Except.error e) ∧
    (∃ e, sos_filter piezo order none sr = Except.error e) ∧
    (0 < sr → low < high →
      ∃ out, sos_filter piezo order (some [low, high]) sr = Except.ok out ∧
        out.length = piezo.length) := by
  have hnyq : ∀ h2 : 0 < sr, (0 : ℚ) < (1 / 2) * sr := fun h2 => by positivity
  refine ⟨?_, ?_, ⟨_, rfl⟩, ?_⟩
  · intro hsr hge
    have hb : butter_bandpass low high sr order =
        Except.error "Digital filter critical frequencies must satisfy low < high" := by
      unfold butter_bandpass
      rw [if_pos]
      exact (div_le_div_iff_of_pos_right (hnyq hsr)).mpr hge
    unfold sos_filter
    simp only [List.length_cons, List.length_nil, List.getD]
    norm_num
    rw [hb]
    exact ⟨_, rfl⟩
  · intro hlen
    unfold sos_filter
    dsimp only
    rw [if_pos hlen]
    exact ⟨_, rfl⟩
  · intro hsr hlt
    have hb : butter_bandpass low high sr order =
        Except.ok (low / ((1 / 2) * sr), high / ((1 / 2) * sr), sr, order) := by
      unfold butter_bandpass
      rw [if_neg]
      push_neg
      exact (div_lt_div_iff_of_pos_right (hnyq hsr)).mpr hlt
    unfold sos_filter
    simp only [List.length_cons, List.length_nil, List.getD]
    norm_num
    rw [hb]
    exact ⟨_, rfl, by simp [sosfiltfilt]⟩

/-- Witness for C1: the concrete example from the spec.  A recording with 100
samples over 10 seconds (step `10/99` s) annotated at `t0`, `t0+1s`,
`t0+2s` with amplitudes `5.0`, `8.0`, `3.0`: the third click commits one
row with `width = 99/5 = 2 * (99/10) = 19.8` sample offsets and
`height = 8 - 3 = 5`, and resets the editor. -/
theorem handle_commit_third_click_witness :
    handle_annotation [⟨0, List.replicate 100 0⟩] 10 ATrigger.mainPlot
        (some ⟨2, 3⟩) (some 0)
        (some { modeActive := true, clickCount := 2, i_samp := some 0, i_amp := some 5,
                j_samp := some (99 / 10), j_amp := some 8, k_samp := none, k_amp := none })
        (some []) =
      some (initAnnot, [(0,
        [{ i := some 0, j := some (99 / 10), k := some (99 / 5),
           width := 99 / 5, height := 5,
           i_conf := "", j_conf := "", k_conf := "" }])]) :=
  (handle_commit_third_click [⟨0, List.replicate 100 0⟩] 10 ⟨2, 3⟩ 0
      ⟨0, List.replicate 100 0⟩
      { modeActive := true, clickCount := 2, i_samp := some 0, i_amp := some 5,
        j_samp := some (99 / 10), j_amp := some 8, k_samp := none, k_amp := none }
      (some []) 0 5 (99 / 10) 8 rfl rfl rfl rfl rfl rfl rfl).trans (by
    norm_num [appendRow, ensureKey, tableGet, tableSet, sampleIndexFloat, stepSec])

/-- Witness for C2 at concrete histories. -/
theorem history_round_trip_witness :
    redo (undo
        ({ past := [{ table := 1, annot := 1 }],
           present := { table := 2, annot := 2 }, future := [] } : History Nat Nat)) =
      ({ past := [{ table := 1, annot := 1 }],
         present := { table := 2, annot := 2 }, future := [] } : History Nat Nat) ∧
    (recordMutations (initialHistory : History Nat Nat) [(1, 2), (3, 4)]).future = [] :=
  ⟨(history_round_trip Nat Nat []).1 _ (by decide),
    ((history_round_trip Nat Nat [(1, 2), (3, 4)]).2).1⟩

/-- Witness for the amended C3 at a concrete changed snapshot. -/
theorem sync_change_overwrites_witness :
    tableGet (sync_table_deletion [rowA] [] (some 0) (some [])) 0 = some [rowA] :=
  ((sync_change_overwrites [rowA] [] 0 (some [])).1 (by decide)).1

/-- Witness for C4: a differing incoming pair pushes the present and clears
a non-empty future. -/
theorem record_if_changed_witness :
    manage_history HTrigger.storeUpdate 5 6
        (some ({ past := [], present := { table := 1, annot := 2 },
                 future := [{ table := 9, annot := 9 }] } : History Nat Nat)) =
      ({ past := [{ table := 1, annot := 2 }],
         present := { table := 5, annot := 6 }, future := [] }, 5, 6) :=
  (record_if_changed_spec Nat Nat 5 6 _).1 (by decide)

/-- Witness for C5 at the initial state and one arming step. -/
theorem annot_editor_invariant_witness :
    initAnnot.clickCount ≤ 2 ∧
      (armedAnnot.clickCount ≤ 2 ∧
        (([(0, [])] : Table) = ensureKey ((some ([] : Table)).getD []) 0 ∨
          ∃ r, ([(0, [])] : Table) = appendRow (ensureKey ((some ([] : Table)).getD []) 0) 0 r ∧
            armedAnnot = initAnnot)) :=
  ⟨(annot_editor_invariant [] 1).1 initAnnot ReachableAnnot.init,
    (annot_editor_invariant [] 1).2 initAnnot ATrigger.addComplexBtn none 0 (some [])
      armedAnnot [(0, [])] (by decide) (by decide)⟩

/-- Witness for C7 at one row, a real base name, and an unsupported
format. -/
theorem export_table_witness :
    export_table [rowA] "csv" "myfile" =
      ExportResult.csvFile
        ((if ("myfile" : String) = "" then "annotations" else "myfile") ++ ".csv")
        rowFieldNames [rowA] ∧
    export_table [rowA] "parquet" "myfile" = ExportResult.noUpdate :=
  ⟨(export_table_spec [rowA] "parquet" "myfile").2.1 (by decide),
    (export_table_spec [rowA] "parquet" "myfile").2.2 (by decide)⟩

/-- Witness for C8 at the 100-sample, 10-second recording of the spec. -/
theorem time_axis_witness :
    timeAxis 0 (stepSec 10 100) 2 = 0 + 2 * (10 / ((100 : ℚ) - 1)) ∧
    |(pyRound (99 / 10) : ℚ) - 99 / 10| ≤ 1 / 2 :=
  ⟨(time_axis_spec 0 10 100 2 (99 / 10) 5 100).1 (by norm_num),
    (time_axis_spec 0 10 100 2 (99 / 10) 5 100).2.2.2.2.1⟩

/-- Witness for C9 at the default filter settings of the app (1.5-10 Hz band,
250 Hz sampling) and at a reversed band. -/
theorem sos_filter_witness :
    (∃ out, sos_filter [1, 2, 3] 2 (some [3 / 2, 10]) 250 = Except.ok out ∧
      out.length = ([1, 2, 3] : List ℚ).length) ∧
    (∃ e, sos_filter [1, 2, 3] 2 (some [10, 3 / 2]) 250 = Except.error e) :=
  ⟨(sos_filter_spec [1, 2, 3] 2 (3 / 2) 10 250 []).2.2.2 (by norm_num) (by norm_num),
    (sos_filter_spec [1, 2, 3] 2 10 (3 / 2) 250 []).1 (by norm_num) (by norm_num)⟩

/-- Witness for C10: a no-action trigger on a fresh table still inserts the
key of the selected recording. -/
theorem handle_table_frame_witness :
    (tableGet ([(0, [])] : Table) 0).isSome = true :=
  (handle_table_frame [] 1 ATrigger.other none 0 none none initAnnot [(0, [])]
    (by decide)).1
